import Mathlib

/-!
Verification development for the deployr recipe front-end and execution
engine: a shallow embedding of the tokenizer (`lexer/lexer.go`), the
validating parser (`parser/parser.go`), and the statement evaluator
(`evaluator/evaluator.go`), together with theorems settling the frozen
claims about them.

Conventions of the embedding:
* Go strings are Lean `String`s; Go rune slices are `List Char`; the Go
  NUL sentinel `rune(0)` is `Char.ofNat 0`.
* Go maps `map[string]string` are association lists `List (String × String)`
  read through `List.lookup` (first binding wins, as an updated Go map);
  a Go map read of a missing key yields the zero value `""`, embedded by
  `mapGet`.
* External capabilities (SSH transport, filesystem, glob, fingerprinting,
  templating, the secret prompt) are fields of an `Env` record; the network
  calls the evaluator makes are recorded as an `Event` trace.
-/

namespace Deployr

/-- Token (token/token.go): a token type (a plain Go string such as
`"IDENT"` or `"Run"`) together with its literal text. -/
structure Token where
  ttype : String
  literal : String
deriving DecidableEq, Repr

/-- The reserved-keyword table of `token/token.go` (`keywords`): each
keyword maps to the token type spelt the same way. -/
def keywords : List String :=
  ["CopyFile", "CopyTemplate", "DeployTo", "IfChanged", "Run", "Set", "Sudo"]

/-- Embeds `token.LookupIdentifier`: classify a bare word against the keyword
table, defaulting to `IDENT`. -/
def LookupIdentifier (s : String) : String :=
  if s ∈ keywords then s else "IDENT"

/-- Statement (statement/statement.go): the action token, the `Sudo`
privilege flag, and the argument tokens. -/
structure Statement where
  Token : Token
  Sudo : Bool
  Arguments : List Deployr.Token
deriving DecidableEq, Repr

/-! Part 1: the tokenizer (lexer/lexer.go). -/

/-- The Go NUL rune `rune(0)`, used by the lexer as its end marker. -/
def nulChar : Char := Char.ofNat 0

/-- Embeds `isWhitespace` of lexer.go. -/
def isWhitespaceCh (c : Char) : Bool :=
  c = ' ' || c = '\t' || c = '\n' || c = '\r'

/-- Embeds `isEmpty` of lexer.go. -/
def isEmptyCh (c : Char) : Bool := c = nulChar

/-- Embeds `isIdentifier` of lexer.go: any rune that is neither whitespace nor NUL. -/
def isIdentifierCh (c : Char) : Bool := !isWhitespaceCh c && !isEmptyCh c

/-- Embeds `Lexer.skipWhitespace`: drop leading whitespace from the remaining
input. -/
def skipWs (cs : List Char) : List Char := cs.dropWhile isWhitespaceCh

/-- One escape mapping step of `Lexer.readString`: after a backslash the
runes `n r t " \` map to their escapes and any other rune stands for
itself. -/
def escapeChar (c : Char) : Char :=
  if c = 'n' then '\n'
  else if c = 'r' then '\r'
  else if c = 't' then '\t'
  else if c = '"' then '"'
  else if c = '\\' then '\\'
  else c

/-- Embeds `Lexer.readString`, applied to the input after the opening quote.
Returns the string contents and the input after the closing quote, or
`none` for an unterminated string (reaching the end of input, or the NUL
sentinel, before a closing quote).  A backslash immediately before a
newline consumes both and contributes nothing (line continuation). -/
def readStr : List Char → Option (List Char × List Char)
  | [] => none
  | c :: rest =>
    if c = '"' then some ([], rest)
    else if c = nulChar then none
    else if c = '\\' then
      match rest with
      | [] => none
      | c2 :: rest2 =>
        if c2 = '\n' then readStr rest2
        else (readStr rest2).map (fun p => (escapeChar c2 :: p.1, p.2))
    else (readStr rest).map (fun p => (c :: p.1, p.2))

/-- Embeds `Lexer.NextToken` with explicit recursion fuel (one unit per skipped
comment line; the wrapper `lexNext` always supplies enough): skip
whitespace, skip `#` comments (which covers the shebang line, whose Go
branch performs the same skip), then read a string, the end-of-input
token, or a bare identifier classified through `LookupIdentifier`.
Returns the token and the remaining input. -/
def lexNextF : Nat → List Char → Token × List Char
  | 0, cs => (⟨"EOF", ""⟩, cs)
  | n + 1, cs =>
    match skipWs cs with
    | [] => (⟨"EOF", ""⟩, [])
    | c :: rest =>
      if c = '#' then
        -- skipComment: consume up to the next newline, then start over.
        lexNextF n (rest.dropWhile (fun ch => ch ≠ '\n'))
      else if c = '"' then
        match readStr rest with
        | some p => (⟨"STRING", String.mk p.1⟩, p.2)
        | none => (⟨"ILLEGAL", "unterminated string"⟩, [])
      else if c = nulChar then
        (⟨"EOF", ""⟩, c :: rest)
      else
        let lit := (c :: rest).takeWhile isIdentifierCh
        (⟨LookupIdentifier (String.mk lit), String.mk lit⟩,
          (c :: rest).dropWhile isIdentifierCh)

/-- Embeds `Lexer.NextToken` on the remaining input: `cs.length + 1` units of
fuel always suffice, because each comment line skipped consumes at least
one character. -/
def lexNext (cs : List Char) : Token × List Char := lexNextF (cs.length + 1) cs

/-- The token-collection loop of `Lexer.Dump` and of the lexer tests:
pull tokens until `EOF` (with explicit fuel; `input.length + 1` always
suffices). -/
def lexAll (fuel : Nat) (cs : List Char) : List Token :=
  match fuel with
  | 0 => []
  | n + 1 =>
    let r := lexNext cs
    if r.1.ttype = "EOF" then [r.1] else r.1 :: lexAll n r.2

/-! Part 2: the parser (parser/parser.go). -/

/-- One `NextToken()` pull on the embedded finite stream: past the end the
tokenizer keeps yielding `EOF` tokens. -/
def nextTok : List Token → Token × List Token
  | [] => (⟨"EOF", ""⟩, [])
  | t :: ts => (t, ts)

/-- Embeds `Parser.GetArguments`: fetch one token per expected type, in order,
failing with a message naming the expected kind and the 1-based argument
position on the first mismatch.  `i` is the number of arguments already
consumed (0 at the call sites).  Returns the argument tokens and the
remaining stream. -/
def GetArguments : List String → List Token → Nat → Except String (List Token × List Token)
  | [], ts, _ => .ok ([], ts)
  | k :: ks, ts, i =>
    let p := nextTok ts
    if p.1.ttype = k then
      (GetArguments ks p.2 (i + 1)).map (fun q => (p.1 :: q.1, q.2))
    else
      .error ("expected " ++ k ++ " as argument " ++ toString (i + 1) ++ " - Got " ++ p.1.ttype)

/-- The loop of `Parser.Parse`, with the pending `sudo` flag and the
statements accumulated so far, and explicit loop fuel (one unit per
iteration; every iteration consumes at least one token, so
`ts.length + 1` always suffices — see `Parse`).  Mirrors the Go switch:
error cases return the statements parsed so far together with the error
(`return result, err`), except the unhandled-token case which returns an
empty list (`return nil, err`). -/
def parseTokensF : Nat → List Token → Bool → List Statement → List Statement × Option String
  | 0, _, _, acc => (acc, none)
  | n + 1, ts, su, acc =>
    match ts with
    -- an exhausted stream behaves as the tokenizer's perpetual EOF
    | [] => (acc, none)
    | t :: rest =>
      if t.ttype = "ILLEGAL" then
        (acc, some ("error received from the lexer - " ++ t.literal))
      else if t.ttype = "IDENT" then
        (acc, some ("found unexpected identifier '" ++ t.literal ++ "'"))
      else if t.ttype = "STRING" then
        (acc, some ("found unexpected string '" ++ t.literal ++ "'"))
      else if t.ttype = "CopyTemplate" then
        match GetArguments ["IDENT", "IDENT"] rest 0 with
        | .error e => (acc, some e)
        | .ok q => parseTokensF n q.2 su (acc ++ [⟨t, false, q.1⟩])
      else if t.ttype = "CopyFile" then
        match GetArguments ["IDENT", "IDENT"] rest 0 with
        | .error e => (acc, some e)
        | .ok q => parseTokensF n q.2 su (acc ++ [⟨t, false, q.1⟩])
      else if t.ttype = "DeployTo" then
        match GetArguments ["IDENT"] rest 0 with
        | .error e => (acc, some e)
        | .ok q => parseTokensF n q.2 su (acc ++ [⟨t, false, q.1⟩])
      else if t.ttype = "IfChanged" then
        match GetArguments ["STRING"] rest 0 with
        | .error e => (acc, some e)
        | .ok q => parseTokensF n q.2 false (acc ++ [⟨t, su, q.1⟩])
      else if t.ttype = "Run" then
        match GetArguments ["STRING"] rest 0 with
        | .error e => (acc, some e)
        | .ok q => parseTokensF n q.2 false (acc ++ [⟨t, su, q.1⟩])
      else if t.ttype = "Set" then
        match GetArguments ["IDENT", "STRING"] rest 0 with
        | .error e => (acc, some e)
        | .ok q => parseTokensF n q.2 su (acc ++ [⟨t, false, q.1⟩])
      else if t.ttype = "Sudo" then
        parseTokensF n rest true acc
      else if t.ttype = "EOF" then
        (acc, none)
      else
        ([], some ("unhandled statement - \x7b" ++ t.ttype ++ " " ++ t.literal ++ "\x7d"))

/-- Embeds `Parser.Parse`: run the loop from an empty statement list with the
pending privilege flag clear.  Returns the Go pair
`([]statement.Statement, error)`. -/
def Parse (ts : List Token) : List Statement × Option String :=
  parseTokensF (ts.length + 1) ts false []

/-! Part 3: the evaluator (evaluator/evaluator.go).

The evaluator's externals — the SSH transport (`simplessh`), the local
filesystem, globbing, the fingerprint helper (`util.HashFile`), the
templating pass and the secret prompt — are abstract capabilities bundled
in `Env`.  The remote filesystem is carried explicitly so that uploads are
visible to later downloads, and every network call is appended to an
`Event` trace. -/

/-- Reading a Go `map[string]string`: the first binding wins and a missing
key yields the zero value `""`. -/
def mapGet (m : List (String × String)) (k : String) : String :=
  (List.lookup k m).getD ""

/-- Embeds `strings.Contains` style prefix test on rune lists. -/
def listPrefixOf : List Char → List Char → Bool
  | [], _ => true
  | _ :: _, [] => false
  | a :: as, b :: bs => a = b && listPrefixOf as bs

/-- Embeds `strings.Contains` on rune lists: some suffix of the haystack starts
with the needle. -/
def listContains (needle : List Char) : List Char → Bool
  | [] => needle.isEmpty
  | c :: rest => listPrefixOf needle (c :: rest) || listContains needle rest

/-- Embeds `strings.Contains`. -/
def strContains (s sub : String) : Bool := listContains sub.toList s.toList

/-- Embeds `strings.HasSuffix`. -/
def strHasSuffix (s pat : String) : Bool :=
  listPrefixOf pat.toList.reverse s.toList.reverse

/-- Embeds `strings.Split` for the single-rune separators (`"@"`, `":"`, `"/"`)
the evaluator uses. -/
def splitOnChar (sep : Char) : List Char → List (List Char)
  | [] => [[]]
  | c :: rest =>
    let r := splitOnChar sep rest
    if c = sep then [] :: r
    else (c :: r.headD []) :: r.tail

/-- Embeds `strings.Split` on strings, single-rune separator. -/
def strSplit (s : String) (sep : Char) : List String :=
  (splitOnChar sep s.toList).map String.mk

/-- The rune `{` (written via its code point to keep it out of string
notation). -/
def lbrace : Char := Char.ofNat 123

/-- The rune `}`. -/
def rbrace : Char := Char.ofNat 125

/-- The body of a `${...}` reference at the current position: the regex
fragment `([^\x7d]+)\x7d` — at least one non-`\x7d` rune followed by the
closing brace.  Returns the body and the input after the closing brace,
or `none` when the regex does not match here. -/
def spanBody (cs : List Char) : Option (List Char × List Char) :=
  let b := cs.takeWhile (fun ch => ch ≠ rbrace)
  match cs.dropWhile (fun ch => ch ≠ rbrace) with
  | _ :: r => if b.isEmpty then none else some (b, r)
  | [] => none

/-- Embeds `regexp.ReplaceAllStringFunc` specialised to the evaluator's pattern
`\$\x7b([^\x7d]+)\x7d`, with explicit fuel (one unit per rune scanned or
reference replaced; the wrapper `scanExpand` always supplies enough):
scan left to right, replace each non-overlapping match by `f body`, and
never rescan the replacement text. -/
def scanExpandF (f : String → String) : Nat → List Char → List Char
  | 0, cs => cs
  | n + 1, cs =>
    match cs with
    | [] => []
    | c :: rest =>
      if c = '$' then
        match rest with
        | c2 :: rest2 =>
          if c2 = lbrace then
            match spanBody rest2 with
            | some p => (f (String.mk p.1)).toList ++ scanExpandF f n p.2
            | none => c :: scanExpandF f n rest
          else c :: scanExpandF f n rest
        | [] => [c]
      else c :: scanExpandF f n rest

/-- The replacement scan with sufficient fuel. -/
def scanExpand (f : String → String) (cs : List Char) : List Char :=
  scanExpandF f (cs.length + 1) cs

/-- Evaluator state (the fields of `Evaluator` that the embedded
behaviour reads or writes; `Identity` and the held `*simplessh.Client`
are externals, the latter abstracted to whether a connection exists). -/
structure EvalState where
  Variables : List (String × String)
  ROVariables : List (String × String)
  Connection : Option Unit
  Changed : Bool
  NOP : Bool
  Verbose : Bool
deriving DecidableEq, Repr

/-- Embeds `evaluator.New` followed by the `SetNOP`/`SetVerbose` defaults: empty
variable maps, no connection, changed-flag clear. -/
def initState : EvalState :=
  { Variables := [], ROVariables := [], Connection := none,
    Changed := false, NOP := false, Verbose := false }

/-- The inner replacement function of `Evaluator.expandString` (and the
two-tier lookup shared with the template `get` accessor): read-only
variables first, then mutable ones, and an unresolved name is left as the
literal `${name}` text. -/
def lookupVar (e : EvalState) (name : String) : String :=
  if (mapGet e.ROVariables name).length > 0 then mapGet e.ROVariables name
  else if (mapGet e.Variables name).length > 0 then mapGet e.Variables name
  else String.mk ('$' :: lbrace :: name.toList ++ [rbrace])

/-- Embeds `Evaluator.expandString`. -/
def expandString (e : EvalState) (s : String) : String :=
  String.mk (scanExpand (lookupVar e) s.toList)

/-- A network call made through the SSH connection. -/
inductive Event where
  | connect (destination user : String)
  | exec (cmd : String)
  | execSudo (cmd password : String)
  | download (remote : String)
  | upload (remote : String)
deriving DecidableEq, Repr

/-- The world outside the evaluator: the remote filesystem (path →
content) and the trace of network calls made so far. -/
structure World where
  remoteFS : List (String × String)
  events : List Event
deriving DecidableEq, Repr

/-- The abstract capabilities consumed by the evaluator (spec §6).
Faults (`dlFault`, `uploadFault`, `connectFault`) let a run model
transport failures beyond a missing remote file. -/
structure Env where
  localFS : List (String × String)
  glob : String → Option (List String)
  stat : String → Option Bool
  render : String → String
  hash : String → String
  dlFault : String → Option String
  uploadFault : String → Option String
  connectFault : String → Option String
  execRes : String → Except String String
  execSudoRes : String → String → Except String String
  secret : String

/-- Embeds `Connection.Download remote scratch`: a transport fault yields its
message; otherwise a present remote file yields its content and a missing
one the transport's "file does not exist" error. -/
def download (env : Env) (rfs : List (String × String)) (remote : String) :
    Except String String :=
  match env.dlFault remote with
  | some m => .error m
  | none =>
    match List.lookup remote rfs with
    | some c => .ok c
    | none => .error "file does not exist"

/-- The effective local content `Evaluator.copyFile` works with: the raw
file bytes, or — for `CopyTemplate` — the templating pass's rendering of
them (written to a scratch file in Go; the scratch plumbing has no
observable effect beyond the content). -/
def effContent (env : Env) (data : String) (expand : Bool) : String :=
  if expand then env.render data else data

/-- The upload step of `Evaluator.copyFile`: a fault leaves the remote
filesystem unchanged (the Go code prints and keeps `changed`), otherwise
the remote path now holds the uploaded content. -/
def doUpload (env : Env) (rfs : List (String × String)) (remote eff : String) :
    List (String × String) :=
  match env.uploadFault remote with
  | some _ => rfs
  | none => (remote, eff) :: rfs

/-- Result of one `copyFile`/`copyFiles` call: `exit` is `os.Exit`
(unreadable local file), otherwise the changed flag, the new remote
filesystem and the network calls made. -/
inductive CopyRes where
  | exit (code : Nat)
  | res (changed : Bool) (remoteFS : List (String × String)) (events : List Event)
deriving DecidableEq, Repr

/-- Embeds `Evaluator.copyFile`: hash the effective local file (an unreadable
local file is `os.Exit(11)`), fetch the remote file into a scratch
location, treat a missing remote file (an error mentioning "not exist")
or a fingerprint mismatch as "changed", and upload exactly when changed.
(The Go branch for a scratch file that fails to hash after a successful
download cannot arise here: a downloaded content always fingerprints.) -/
def copyFile (env : Env) (rfs : List (String × String))
    (lcl remote : String) (expand : Bool) : CopyRes :=
  match List.lookup lcl env.localFS with
  | none => .exit 11
  | some data =>
    let eff := effContent env data expand
    let hashLocal := env.hash eff
    match download env rfs remote with
    | .ok remoteContent =>
      if env.hash remoteContent ≠ hashLocal then
        .res true (doUpload env rfs remote eff) [.download remote, .upload remote]
      else
        .res false rfs [.download remote]
    | .error msg =>
      if strContains msg "not exist" then
        .res true (doUpload env rfs remote eff) [.download remote, .upload remote]
      else
        .res false rfs [.download remote]

/-- Embeds `path.Base`: the last element of the path after trailing slashes are
removed; `"."` for the empty path, `"/"` for an all-slash path. -/
def pathBase (s : String) : String :=
  if s = "" then "."
  else
    let trimmed := (s.toList.reverse.dropWhile (fun ch => ch = '/')).reverse
    if trimmed.isEmpty then "/"
    else String.mk (trimmed.reverse.takeWhile (fun ch => ch ≠ '/')).reverse

/-- The per-file loop of `Evaluator.copyFiles` over a glob's matches:
files that fail to stat and directories are skipped; the changed flags of
the individual copies are OR-ed. -/
def copyFilesLoop (env : Env) (destination : String) (expand : Bool) :
    List String → List (String × String) → Bool → List Event → CopyRes
  | [], rfs, ch, evs => .res ch rfs evs
  | f :: fs, rfs, ch, evs =>
    match env.stat f with
    | none => copyFilesLoop env destination expand fs rfs ch evs
    | some true => copyFilesLoop env destination expand fs rfs ch evs
    | some false =>
      match copyFile env rfs f (destination ++ pathBase f) expand with
      | .exit c => .exit c
      | .res c1 rfs' evs' =>
        copyFilesLoop env destination expand fs rfs' (if c1 then true else ch) (evs ++ evs')

/-- Embeds `Evaluator.copyFiles`: a pattern ending in `/` gets `*` appended; a
glob error or an empty match set yields "unchanged"; a single match equal
to the pattern is copied directly to the destination; otherwise the
destination is forced to a directory and each regular match is copied to
`destination + basename`. -/
def copyFiles (env : Env) (rfs : List (String × String))
    (pattern destination : String) (expand : Bool) : CopyRes :=
  let pat := if strHasSuffix pattern "/" then pattern ++ "*" else pattern
  match env.glob pat with
  | none => .res false rfs []
  | some files =>
    if files.length < 1 then .res false rfs []
    else if files.length = 1 && files.headD "" = pat then
      copyFile env rfs pat destination expand
    else
      let dest := if strHasSuffix destination "/" then destination else destination ++ "/"
      copyFilesLoop env dest expand files rfs false []

/-- Embeds `Evaluator.ConnectTo`: a second connect request is ignored; otherwise
parse `[user@]host[:port]` (defaults `root`/`22`), record `host`, `port`
and `user` in the mutable variable map, attempt the SSH connection (one
`Event.connect`), and on success hold the connection. -/
def connectTo (env : Env) (st : EvalState) (w : World) (target : String) :
    Option String × EvalState × World :=
  if st.Connection.isSome then (none, st, w)
  else
    let user := if strContains target "@" then (strSplit target '@').getD 0 "" else "root"
    let host0 := if strContains target "@" then (strSplit target '@').getD 1 "" else target
    let host := if strContains host0 ":" then (strSplit host0 ':').getD 0 "" else host0
    let port := if strContains host0 ":" then (strSplit host0 ':').getD 1 "" else "22"
    let st := { st with Variables :=
      ("user", user) :: ("port", port) :: ("host", host) :: st.Variables }
    let destination := host ++ ":" ++ port
    let w := { w with events := w.events ++ [.connect destination user] }
    match env.connectFault destination with
    | some msg => (some msg, st, w)
    | none => (none, { st with Connection := some () }, w)

/-- Result of executing one statement, or a prefix of the program:
`errS` is a fatal error (the Go `return err`, aborting the remaining
statements), `exitS` is `os.Exit`, `okS` continues. -/
inductive StepRes where
  | errS (st : EvalState) (w : World) (msg : String)
  | exitS (code : Nat)
  | okS (st : EvalState) (w : World)
deriving DecidableEq, Repr

/-- The error the evaluator raises for `Run`/`IfChanged`/`CopyFile`/
`CopyTemplate` without an established connection. -/
def connErr : String := "tried to run a command, but not connected to a target"

/-- The literal of argument `i` of a statement (`statement.Arguments[i]`;
the parser guarantees presence, so the default is never read on parsed
programs). -/
def argLit (s : Statement) (i : Nat) : String :=
  (s.Arguments.getD i ⟨"", ""⟩).literal

/-- The `Run`/`IfChanged` command execution: `Connection.ExecSudo` with
the prompted password for privileged statements, `Connection.Exec`
otherwise; a failure is fatal. -/
def execStep (env : Env) (password : String) (st : EvalState) (w : World)
    (cmd : String) (su : Bool) : StepRes :=
  let r := if su then env.execSudoRes cmd password else env.execRes cmd
  let ev : Event := if su then .execSudo cmd password else .exec cmd
  let w' := { w with events := w.events ++ [ev] }
  match r with
  | .error e => .errS st w' ("failed to run command '" ++ cmd ++ "': " ++ e)
  | .ok _ => .okS st w'

/-- One iteration of the statement loop of `Evaluator.Run` (the switch on
the statement's token type). -/
def stepStmt (env : Env) (password : String) (st : EvalState) (w : World)
    (s : Statement) : StepRes :=
  if s.Token.ttype = "CopyTemplate" then
    if st.Connection.isNone then .errS st w connErr
    else
      let src := expandString st (argLit s 0)
      let dst := expandString st (argLit s 1)
      if st.NOP then .okS st w
      else
        match copyFiles env w.remoteFS src dst true with
        | .exit c => .exitS c
        | .res ch rfs' evs =>
          .okS { st with Changed := ch } { remoteFS := rfs', events := w.events ++ evs }
  else if s.Token.ttype = "CopyFile" then
    if st.Connection.isNone then .errS st w connErr
    else
      let src := expandString st (argLit s 0)
      let dst := expandString st (argLit s 1)
      if st.NOP then .okS st w
      else
        match copyFiles env w.remoteFS src dst false with
        | .exit c => .exitS c
        | .res ch rfs' evs =>
          .okS { st with Changed := ch } { remoteFS := rfs', events := w.events ++ evs }
  else if s.Token.ttype = "DeployTo" then
    let arg := expandString st (argLit s 0)
    match connectTo env st w arg with
    | (some msg, st', w') => .errS st' w' msg
    | (none, st', w') => .okS st' w'
  else if s.Token.ttype = "IfChanged" then
    if !st.Changed then .okS st w
    else if st.Connection.isNone then .errS st w connErr
    else
      let cmd := expandString st (argLit s 0)
      if st.NOP then .okS st w
      else execStep env password st w cmd s.Sudo
  else if s.Token.ttype = "Run" then
    if st.Connection.isNone then .errS st w connErr
    else
      let cmd := expandString st (argLit s 0)
      if st.NOP then .okS st w
      else execStep env password st w cmd s.Sudo
  else if s.Token.ttype = "Set" then
    let key := argLit s 0
    let val := expandString st (argLit s 1)
    .okS { st with Variables := (key, val) :: st.Variables } w
  else if s.Token.ttype = "Sudo" then
    -- the Go case is empty (the parser never emits a Sudo statement)
    .okS st w
  else
    .errS st w ("unhandled statement - \x7b" ++ s.Token.ttype ++ " " ++ s.Token.literal ++ "\x7d")

/-- The statement loop of `Evaluator.Run`: statements run strictly in
order; the first fatal error (or `os.Exit`) abandons the rest. -/
def runStmts (env : Env) (password : String) (st : EvalState) (w : World) :
    List Statement → StepRes
  | [] => .okS st w
  | s :: rest =>
    match stepStmt env password st w s with
    | .okS st' w' => runStmts env password st' w' rest
    | .errS st' w' m => .errS st' w' m
    | .exitS c => .exitS c

/-- Embeds `Evaluator.Run`: scan the whole program for a privileged statement
and, if any, obtain the sudo password once (the interactive prompt is the
`secret` capability); then run the statements.  (The final disconnect on
the success path closes the transport and is not otherwise observable
here.) -/
def evalRun (env : Env) (st : EvalState) (w : World) (program : List Statement) : StepRes :=
  let anySudo := program.any (fun s => s.Sudo)
  let password := if anySudo then env.secret else ""
  runStmts env password st w program

/-! Shared concrete environment for counterexamples and witnesses. -/

/-- A benign environment: one readable local file, no transport faults,
every exec succeeds. -/
def envDemo : Env :=
  { localFS := [("f", "DATA")]
    glob := fun _ => some []
    stat := fun _ => none
    render := id
    hash := id
    dlFault := fun _ => none
    uploadFault := fun _ => none
    connectFault := fun _ => none
    execRes := fun _ => .ok ""
    execSudoRes := fun _ _ => .ok ""
    secret := "hunter2" }

/-- The network calls recorded by an execution outcome. -/
def resEvents : StepRes → List Event
  | .errS _ w _ => w.events
  | .exitS _ => []
  | .okS _ w => w.events

/-- A connected dry-run state, for exercising `nop_amended`. -/
def nopConnectedState : EvalState :=
  { initState with NOP := true, Connection := some () }

/-- The scanner's own notion of "contains a `${...}` reference", mirrored
from `scanExpandF`'s match structure. -/
def containsRef : List Char → Bool
  | [] => false
  | c :: rest =>
    if c = '$' then
      match rest with
      | c2 :: rest2 =>
        if c2 = lbrace then
          match spanBody rest2 with
          | some _ => true
          | none => containsRef rest
        else containsRef rest
      | [] => false
    else containsRef rest

/-! Claims about the parser. -/

theorem nextTok_mem (ts : List Token) : ∀ x ∈ (nextTok ts).2, x ∈ ts := by
  cases ts with
  | nil => simp [nextTok]
  | cons a l =>
    intro x hx
    simp only [nextTok] at hx
    exact List.mem_cons_of_mem a hx

theorem GetArguments_mem (ks : List String) :
    ∀ (ts : List Token) (i : Nat) (q : List Token × List Token),
      GetArguments ks ts i = .ok q → ∀ x ∈ q.2, x ∈ ts := by
  induction ks with
  | nil =>
    intro ts i q h x hx
    simp only [GetArguments, Except.ok.injEq] at h
    rw [← h] at hx
    exact hx
  | cons k ks ih =>
    intro ts i q h x hx
    simp only [GetArguments] at h
    by_cases hp : (nextTok ts).1.ttype = k
    · rw [if_pos hp] at h
      rcases hr : GetArguments ks (nextTok ts).2 (i + 1) with e | q' <;> rw [hr] at h
      · simp [Except.map] at h
      · simp only [Except.map, Except.ok.injEq] at h
        rw [← h] at hx
        exact nextTok_mem ts x (ih (nextTok ts).2 (i + 1) q' hr x hx)
    · rw [if_neg hp] at h
      simp at h

/-- A pending privilege flag that no later `Run` or `IfChanged` token
consumes has no effect at all on the parse result: parsing with the flag
set and with it clear agree on any stream free of those tokens. -/
theorem parse_flag_irrelevant (n : Nat) :
    ∀ (ts : List Token) (acc : List Statement) (su su' : Bool),
      (∀ t ∈ ts, t.ttype ≠ "Run" ∧ t.ttype ≠ "IfChanged") →
      parseTokensF n ts su acc = parseTokensF n ts su' acc := by
  induction n with
  | zero => intro ts acc su su' _; rfl
  | succ n ih =>
    intro ts acc su su' h
    match ts with
    | [] => rfl
    | t :: rest =>
      have ht := h t (by simp)
      have hrest : ∀ x ∈ rest, x.ttype ≠ "Run" ∧ x.ttype ≠ "IfChanged" :=
        fun x hx => h x (by simp [hx])
      have harg : ∀ (ks : List String) (q : List Token × List Token),
          GetArguments ks rest 0 = .ok q →
          ∀ x ∈ q.2, x.ttype ≠ "Run" ∧ x.ttype ≠ "IfChanged" :=
        fun ks q hq x hx => hrest x (GetArguments_mem ks rest 0 q hq x hx)
      by_cases h1 : t.ttype = "ILLEGAL"
      · simp [parseTokensF, h1]
      · by_cases h2 : t.ttype = "IDENT"
        · simp [parseTokensF, h1, h2]
        · by_cases h3 : t.ttype = "STRING"
          · simp [parseTokensF, h1, h2, h3]
          · by_cases h4 : t.ttype = "CopyTemplate"
            · rcases hq : GetArguments ["IDENT", "IDENT"] rest 0 with e | q
              · simp [parseTokensF, h1, h2, h3, h4, hq]
              · simp [parseTokensF, h1, h2, h3, h4, hq, ih _ _ su su' (harg _ _ hq)]
            · by_cases h5 : t.ttype = "CopyFile"
              · rcases hq : GetArguments ["IDENT", "IDENT"] rest 0 with e | q
                · simp [parseTokensF, h1, h2, h3, h4, h5, hq]
                · simp [parseTokensF, h1, h2, h3, h4, h5, hq, ih _ _ su su' (harg _ _ hq)]
              · by_cases h6 : t.ttype = "DeployTo"
                · rcases hq : GetArguments ["IDENT"] rest 0 with e | q
                  · simp [parseTokensF, h1, h2, h3, h4, h5, h6, hq]
                  · simp [parseTokensF, h1, h2, h3, h4, h5, h6, hq,
                      ih _ _ su su' (harg _ _ hq)]
                · by_cases h9 : t.ttype = "Set"
                  · rcases hq : GetArguments ["IDENT", "STRING"] rest 0 with e | q
                    · simp [parseTokensF, h1, h2, h3, h4, h5, h6, ht.2, ht.1, h9, hq]
                    · simp [parseTokensF, h1, h2, h3, h4, h5, h6, ht.2, ht.1, h9, hq,
                        ih _ _ su su' (harg _ _ hq)]
                  · by_cases h10 : t.ttype = "Sudo"
                    · simp [parseTokensF, h1, h2, h3, h4, h5, h6, ht.2, ht.1, h9, h10]
                    · by_cases h11 : t.ttype = "EOF" <;>
                        simp [parseTokensF, h1, h2, h3, h4, h5, h6, ht.2, ht.1, h9,
                          h10, h11]

/-- C1: a `Sudo` token consumes no arguments and only sets the pending
privilege flag; other statements (here `Set`) leave the pending flag
untouched; the statement produced by the next `Run` or `IfChanged` token
carries the pending flag, which is cleared at that point; and a `Sudo`
with no qualifying statement afterward produces no statement and no
error — an unconsumed flag is invisible in the result and is discarded
when the stream ends. -/
theorem sudo_flag_lifecycle (n : Nat) (ts : List Token) (acc : List Statement)
    (su : Bool) (l c k v : String) :
    parseTokensF (n + 1) (⟨"Sudo", l⟩ :: ts) su acc = parseTokensF n ts true acc
    ∧ parseTokensF (n + 1) (⟨"Set", l⟩ :: ⟨"IDENT", k⟩ :: ⟨"STRING", v⟩ :: ts) su acc
        = parseTokensF n ts su (acc ++ [⟨⟨"Set", l⟩, false, [⟨"IDENT", k⟩, ⟨"STRING", v⟩]⟩])
    ∧ parseTokensF (n + 1) (⟨"Run", l⟩ :: ⟨"STRING", c⟩ :: ts) su acc
        = parseTokensF n ts false (acc ++ [⟨⟨"Run", l⟩, su, [⟨"STRING", c⟩]⟩])
    ∧ parseTokensF (n + 1) (⟨"IfChanged", l⟩ :: ⟨"STRING", c⟩ :: ts) su acc
        = parseTokensF n ts false (acc ++ [⟨⟨"IfChanged", l⟩, su, [⟨"STRING", c⟩]⟩])
    ∧ parseTokensF (n + 1) [⟨"Sudo", l⟩] su acc = (acc, none)
    ∧ (∀ su', (∀ t ∈ ts, t.ttype ≠ "Run" ∧ t.ttype ≠ "IfChanged") →
        parseTokensF n ts su acc = parseTokensF n ts su' acc) := by
  refine ⟨?_, ?_, ?_, ?_, ?_, ?_⟩
  · simp [parseTokensF]
  · simp [parseTokensF, GetArguments, nextTok, Except.map]
  · simp [parseTokensF, GetArguments, nextTok, Except.map]
  · simp [parseTokensF, GetArguments, nextTok, Except.map]
  · cases n <;> simp [parseTokensF]
  · exact fun su' h => parse_flag_irrelevant n ts acc su su' h

/-- Witness for `sudo_flag_lifecycle`: on the `Run`-free and
`IfChanged`-free stream `Set k "v" EOF`, a pending privilege flag makes
no difference to the parse. -/
theorem sudo_flag_lifecycle_witness :
    parseTokensF 5 [⟨"Set", "Set"⟩, ⟨"IDENT", "k"⟩, ⟨"STRING", "v"⟩, ⟨"EOF", ""⟩] false []
      = parseTokensF 5 [⟨"Set", "Set"⟩, ⟨"IDENT", "k"⟩, ⟨"STRING", "v"⟩, ⟨"EOF", ""⟩] true [] :=
  (sudo_flag_lifecycle 5 [⟨"Set", "Set"⟩, ⟨"IDENT", "k"⟩, ⟨"STRING", "v"⟩, ⟨"EOF", ""⟩]
    [] false "Sudo" "c" "k" "v").2.2.2.2.2 true (by decide)

/-- C2 fails on the code: parsing `Run "ls"` followed by a bare
identifier returns the already-parsed `Run` statement — a non-empty
partial list — together with a non-nil error. -/
theorem parse_partial_list_counterexample :
    (Parse [⟨"Run", "Run"⟩, ⟨"STRING", "ls"⟩, ⟨"IDENT", "x"⟩, ⟨"EOF", ""⟩]).1 ≠ []
    ∧ (Parse [⟨"Run", "Run"⟩, ⟨"STRING", "ls"⟩, ⟨"IDENT", "x"⟩, ⟨"EOF", ""⟩]).2 ≠ none := by
  decide

/-- C2 amended: on a mid-stream error (illegal token, bare identifier,
bare string) `Parse` returns the statements parsed before the error —
a possibly non-empty partial list — together with the error; callers must
discard the list whenever the error is non-nil. -/
theorem parse_error_returns_prefix (n : Nat) (ts : List Token)
    (acc : List Statement) (su : Bool) (l : String) :
    parseTokensF (n + 1) (⟨"ILLEGAL", l⟩ :: ts) su acc
        = (acc, some ("error received from the lexer - " ++ l))
    ∧ parseTokensF (n + 1) (⟨"IDENT", l⟩ :: ts) su acc
        = (acc, some ("found unexpected identifier '" ++ l ++ "'"))
    ∧ parseTokensF (n + 1) (⟨"STRING", l⟩ :: ts) su acc
        = (acc, some ("found unexpected string '" ++ l ++ "'")) := by
  refine ⟨?_, ?_, ?_⟩ <;> simp [parseTokensF]

/-! Claims about the lexer. -/

/-- C9: lexing `Set greeting "Hello, world!"` produces exactly the
`Set`, `IDENT` and `STRING` tokens followed by the terminal `EOF`
token. -/
theorem lex_scenario_a :
    lexAll 40 ("Set greeting \"Hello, world!\"".toList)
      = [⟨"Set", "Set"⟩, ⟨"IDENT", "greeting"⟩,
         ⟨"STRING", "Hello, world!"⟩, ⟨"EOF", ""⟩] := by
  decide

/-! Claims about the evaluator. -/

/-- C3 fails on the code: an `IfChanged` statement reached with no
connection is silently skipped — with no error and nothing further
executed differently — whenever the changed flag is false (the flag check
precedes the connection check), so not every `Run`/`IfChanged` reached
without a connection is a fatal error. -/
theorem ifchanged_no_connection_counterexample :
    initState.Connection = none
    ∧ evalRun envDemo initState ⟨[], []⟩
        [⟨⟨"IfChanged", "IfChanged"⟩, false, [⟨"STRING", "x"⟩]⟩]
      = .okS initState ⟨[], []⟩ := by
  decide

/-- C3 amended: a `Run` statement reached with no connection — and an
`IfChanged` statement reached with no connection while the changed flag
is true — makes the evaluator return the fatal "not connected" error
immediately, executing none of the remaining statements; an `IfChanged`
reached while the changed flag is false is skipped before the connection
check and execution continues with the rest of the program. -/
theorem no_connection_fatal (env : Env) (password : String) (st : EvalState)
    (w : World) (rest : List Statement) (args : List Token) (l : String) (su : Bool)
    (h : st.Connection = none) :
    runStmts env password st w (⟨⟨"Run", l⟩, su, args⟩ :: rest) = .errS st w connErr
    ∧ (st.Changed = true →
        runStmts env password st w (⟨⟨"IfChanged", l⟩, su, args⟩ :: rest)
          = .errS st w connErr)
    ∧ (st.Changed = false →
        runStmts env password st w (⟨⟨"IfChanged", l⟩, su, args⟩ :: rest)
          = runStmts env password st w rest) := by
  refine ⟨?_, fun hc => ?_, fun hc => ?_⟩
  · simp [runStmts, stepStmt, h, Option.isNone]
  · simp [runStmts, stepStmt, h, hc, Option.isNone]
  · simp [runStmts, stepStmt, h, hc, Option.isNone]

/-- Witness for `no_connection_fatal` at a concrete program: a lone
privileged-free `Run "ls"` with no connection aborts with the
"not connected" error. -/
theorem no_connection_fatal_witness :
    runStmts envDemo "" initState ⟨[], []⟩
        [⟨⟨"Run", "Run"⟩, false, [⟨"STRING", "ls"⟩]⟩]
      = .errS initState ⟨[], []⟩ connErr :=
  (no_connection_fatal envDemo "" initState ⟨[], []⟩ [] [⟨"STRING", "ls"⟩]
    "Run" false rfl).1

/-- C4: when the fetch of the current remote file fails, an error
mentioning "not exist" marks the file changed and uploads it, while any
other fetch error marks it unchanged and attempts no upload. -/
theorem copy_fetch_failure (env : Env) (rfs : List (String × String))
    (lcl remote : String) (expand : Bool) (msg data : String)
    (hl : List.lookup lcl env.localFS = some data)
    (hf : env.dlFault remote = some msg) :
    (strContains msg "not exist" = true →
      copyFile env rfs lcl remote expand
        = .res true (doUpload env rfs remote (effContent env data expand))
            [.download remote, .upload remote])
    ∧ (strContains msg "not exist" = false →
      copyFile env rfs lcl remote expand = .res false rfs [.download remote]) := by
  refine ⟨fun hc => ?_, fun hc => ?_⟩ <;> simp [copyFile, download, hl, hf, hc]

/-- Witness for `copy_fetch_failure`: a "does not exist" failure uploads;
a "connection reset" failure does not. -/
theorem copy_fetch_failure_witness :
    copyFile { envDemo with dlFault := fun _ => some "file does not exist" }
        [] "f" "r" false
      = .res true [("r", "DATA")] [.download "r", .upload "r"]
    ∧ copyFile { envDemo with dlFault := fun _ => some "connection reset" }
        [] "f" "r" false
      = .res false [] [.download "r"] :=
  ⟨(copy_fetch_failure { envDemo with dlFault := fun _ => some "file does not exist" }
      [] "f" "r" false "file does not exist" "DATA" rfl rfl).1 (by decide),
   (copy_fetch_failure { envDemo with dlFault := fun _ => some "connection reset" }
      [] "f" "r" false "connection reset" "DATA" rfl rfl).2 (by decide)⟩


/-- C5 fails on the code: `DeployTo` is not guarded by dry-run mode, so a
program containing it performs a real network connection attempt even
with NOP enabled. -/
theorem nop_connect_counterexample :
    ({ initState with NOP := true }).NOP = true
    ∧ resEvents (evalRun envDemo { initState with NOP := true } ⟨[], []⟩
          [⟨⟨"DeployTo", "DeployTo"⟩, false, [⟨"IDENT", "example.com"⟩]⟩])
        = [.connect "example.com:22" "root"] := by
  decide

/-- C5 amended: with NOP enabled, copy, run and conditional run perform
no network side effect and leave the evaluator state and world untouched
(they still perform their connection and changed-flag checks, and may
error on a missing connection), and `Set` still updates the variable
store; `DeployTo`, however, is not NOP-guarded and still attempts a real
connection. -/
theorem nop_amended (env : Env) (password : String) (st : EvalState) (w : World)
    (l k v : String) (args : List Token) (su : Bool) (hn : st.NOP = true) :
    stepStmt env password st w ⟨⟨"CopyFile", l⟩, su, args⟩
      = (if st.Connection.isNone then .errS st w connErr else .okS st w)
    ∧ stepStmt env password st w ⟨⟨"CopyTemplate", l⟩, su, args⟩
      = (if st.Connection.isNone then .errS st w connErr else .okS st w)
    ∧ stepStmt env password st w ⟨⟨"Run", l⟩, su, args⟩
      = (if st.Connection.isNone then .errS st w connErr else .okS st w)
    ∧ stepStmt env password st w ⟨⟨"IfChanged", l⟩, su, args⟩
      = (if !st.Changed then .okS st w
         else if st.Connection.isNone then .errS st w connErr else .okS st w)
    ∧ stepStmt env password st w ⟨⟨"Set", l⟩, su, [⟨"IDENT", k⟩, ⟨"STRING", v⟩]⟩
      = .okS { st with Variables := (k, expandString st v) :: st.Variables } w := by
  refine ⟨?_, ?_, ?_, ?_, ?_⟩
  · by_cases hc : st.Connection.isNone <;> simp [stepStmt, hn, hc]
  · by_cases hc : st.Connection.isNone <;> simp [stepStmt, hn, hc]
  · by_cases hc : st.Connection.isNone <;> simp [stepStmt, hn, hc]
  · by_cases hch : st.Changed <;> by_cases hc : st.Connection.isNone <;>
      simp [stepStmt, hn, hch, hc]
  · simp [stepStmt, argLit]


/-- Witness for `nop_amended`: with NOP on and a connection up, a `Run`
makes no network call and a `Set` still records its variable. -/
theorem nop_amended_witness :
    stepStmt envDemo "" nopConnectedState ⟨[], []⟩
        ⟨⟨"Run", "Run"⟩, false, [⟨"STRING", "ls"⟩]⟩ = .okS nopConnectedState ⟨[], []⟩
    ∧ stepStmt envDemo "" nopConnectedState ⟨[], []⟩
        ⟨⟨"Set", "Set"⟩, false, [⟨"IDENT", "k"⟩, ⟨"STRING", "V"⟩]⟩
      = .okS { nopConnectedState with Variables := [("k", "V")] } ⟨[], []⟩ :=
  ⟨(nop_amended envDemo "" nopConnectedState ⟨[], []⟩ "Run" "k" "V"
      [⟨"STRING", "ls"⟩] false rfl).2.2.1,
   (nop_amended envDemo "" nopConnectedState ⟨[], []⟩ "Set" "k" "V"
      [⟨"STRING", "ls"⟩] false rfl).2.2.2.2⟩

/-- C6 fails on the code: executing `Set k "W"` while `k` is bound in the
read-only set stores the value in the mutable map all the same — the Go
`Set` case has no read-only check. -/
theorem set_readonly_counterexample :
    stepStmt envDemo "" { initState with ROVariables := [("k", "V")] } ⟨[], []⟩
        ⟨⟨"Set", "Set"⟩, false, [⟨"IDENT", "k"⟩, ⟨"STRING", "W"⟩]⟩
      = .okS { initState with ROVariables := [("k", "V")], Variables := [("k", "W")] }
          ⟨[], []⟩
    ∧ List.lookup "k" [("k", "W")] = some "W" := by
  decide

theorem str_length_pos (s : String) (h : s ≠ "") : 0 < s.length := by
  cases s with
  | mk data =>
    cases data with
    | nil => exact absurd rfl h
    | cons c cs => simp [String.length]

theorem expandString_ext (e₁ e₂ : EvalState) (h : lookupVar e₁ = lookupVar e₂)
    (s : String) : expandString e₁ s = expandString e₂ s := by
  unfold expandString scanExpand
  rw [h]

theorem lookup_cons_ne {α : Type} (y k : String) (v : α)
    (m : List (String × α)) (h : y ≠ k) :
    List.lookup y ((k, v) :: m) = List.lookup y m := by
  have hb : (y == k) = false := beq_eq_false_iff_ne.mpr h
  simp [List.lookup, hb]

/-- C6 amended: `Set` always writes the mutable map — even for a name in
the read-only set — but because expansion consults the read-only set
first, a `Set` for a name whose read-only value is non-empty has no
observable effect on any subsequent expansion. -/
theorem set_readonly_amended (env : Env) (password : String) (st : EvalState)
    (w : World) (l k raw v' : String) (su : Bool) :
    stepStmt env password st w ⟨⟨"Set", l⟩, su, [⟨"IDENT", k⟩, ⟨"STRING", raw⟩]⟩
      = .okS { st with Variables := (k, expandString st raw) :: st.Variables } w
    ∧ (mapGet st.ROVariables k ≠ "" →
        ∀ s, expandString { st with Variables := (k, v') :: st.Variables } s
          = expandString st s) := by
  constructor
  · simp [stepStmt, argLit]
  · intro hro s
    apply expandString_ext
    funext name
    by_cases hk : name = k
    · subst hk
      have hp := str_length_pos _ hro
      simp [lookupVar, hp]
    · simp [lookupVar, mapGet, lookup_cons_ne name k v' st.Variables hk]

/-- Witness for `set_readonly_amended`: with read-only `k = "V"`, a
recipe `Set k "W"` writes the mutable map yet `expandString` still sees
`"V"`. -/
theorem set_readonly_amended_witness :
    stepStmt envDemo "" { initState with ROVariables := [("k", "V")] } ⟨[], []⟩
        ⟨⟨"Set", "Set"⟩, false, [⟨"IDENT", "k"⟩, ⟨"STRING", "W"⟩]⟩
      = .okS { initState with
                ROVariables := [("k", "V")]
                Variables := [("k", "W")] } ⟨[], []⟩
    ∧ expandString { initState with
                      ROVariables := [("k", "V")]
                      Variables := [("k", "W")] } "$\x7bk\x7d"
      = expandString { initState with ROVariables := [("k", "V")] } "$\x7bk\x7d" :=
  ⟨(set_readonly_amended envDemo "" { initState with ROVariables := [("k", "V")] }
      ⟨[], []⟩ "Set" "k" "W" "W" false).1,
   (set_readonly_amended envDemo "" { initState with ROVariables := [("k", "V")] }
      ⟨[], []⟩ "Set" "k" "W" "W" false).2 (by decide) "$\x7bk\x7d"⟩

/-- After a fault-free `copyFile`, the remote path holds content whose
fingerprint matches the effective local content: either it already
matched, or it was just uploaded. -/
theorem copyFile_sync (env : Env) (rfs : List (String × String))
    (lcl remote : String) (expand : Bool) (data : String)
    (hl : List.lookup lcl env.localFS = some data)
    (hdl : env.dlFault remote = none)
    (hup : env.uploadFault remote = none)
    (ch1 : Bool) (rfs1 : List (String × String)) (ev1 : List Event)
    (h1 : copyFile env rfs lcl remote expand = .res ch1 rfs1 ev1) :
    ∃ r, List.lookup remote rfs1 = some r
      ∧ env.hash r = env.hash (effContent env data expand) := by
  simp only [copyFile, hl, download, hdl, doUpload, hup] at h1
  rcases hr : List.lookup remote rfs with _ | c <;> rw [hr] at h1 <;> dsimp only at h1
  · have hcont : strContains "file does not exist" "not exist" = true := by decide
    rw [if_pos hcont, CopyRes.res.injEq] at h1
    obtain ⟨-, he2, -⟩ := h1
    refine ⟨effContent env data expand, ?_, rfl⟩
    rw [← he2]
    simp [List.lookup]
  · by_cases hh : env.hash c ≠ env.hash (effContent env data expand)
    · rw [if_pos hh, CopyRes.res.injEq] at h1
      obtain ⟨-, he2, -⟩ := h1
      refine ⟨effContent env data expand, ?_, rfl⟩
      rw [← he2]
      simp [List.lookup]
    · rw [if_neg hh, CopyRes.res.injEq] at h1
      obtain ⟨-, he2, -⟩ := h1
      push_neg at hh
      exact ⟨c, by rw [← he2]; exact hr, hh⟩

/-- C7: running the same single-file copy a second time against a remote
file left unchanged since the first (fault-free) run yields
"changed = false" and performs only the fetch — no upload call. -/
theorem copy_idempotent (env : Env) (rfs : List (String × String))
    (lcl remote : String) (expand : Bool) (data : String)
    (ch1 : Bool) (rfs1 : List (String × String)) (ev1 : List Event)
    (hl : List.lookup lcl env.localFS = some data)
    (hdl : env.dlFault remote = none)
    (hup : env.uploadFault remote = none)
    (h1 : copyFile env rfs lcl remote expand = .res ch1 rfs1 ev1) :
    copyFile env rfs1 lcl remote expand = .res false rfs1 [.download remote] := by
  obtain ⟨r, hr, hh⟩ := copyFile_sync env rfs lcl remote expand data hl hdl hup ch1 rfs1 ev1 h1
  simp [copyFile, hl, download, hdl, hr, hh]

/-- Witness for `copy_idempotent`: the first copy of `f` to a bare remote
uploads; the second, against the remote state the first produced, fetches
and does nothing. -/
theorem copy_idempotent_witness :
    copyFile envDemo [("r", "DATA")] "f" "r" false
      = .res false [("r", "DATA")] [.download "r"] :=
  copy_idempotent envDemo [] "f" "r" false "DATA" true [("r", "DATA")]
    [.download "r", .upload "r"] rfl rfl rfl (by decide)

/-! Claims about variable expansion. -/

theorem scanExpandF_nil (f : String → String) (n : Nat) : scanExpandF f n [] = [] := by
  cases n <;> rfl

theorem mk_toList (s : String) : String.mk s.toList = s := by
  cases s
  rfl

theorem toList_append (s t : String) : (s ++ t).toList = s.toList ++ t.toList := by
  cases s
  cases t
  rfl

theorem takeWhile_append_hit (p : Char → Bool) (l r : List Char) (x : Char)
    (hall : ∀ c ∈ l, p c = true) (hx : p x = false) :
    (l ++ x :: r).takeWhile p = l ∧ (l ++ x :: r).dropWhile p = x :: r := by
  induction l with
  | nil => simp [List.takeWhile, List.dropWhile, hx]
  | cons c cs ih =>
    have hc : p c = true := hall c (by simp)
    have ih' := ih (fun d hd => hall d (by simp [hd]))
    simp [List.takeWhile, List.dropWhile, hc, ih'.1, ih'.2]

theorem spanBody_closed (x r : List Char) (h1 : x ≠ []) (h2 : rbrace ∉ x) :
    spanBody (x ++ rbrace :: r) = some (x, r) := by
  have hall : ∀ c ∈ x, (decide (c ≠ rbrace)) = true := by
    intro c hc
    simp
    intro he
    exact h2 (he ▸ hc)
  have hx : (decide (rbrace ≠ rbrace)) = false := by simp
  obtain ⟨ht, hd⟩ := takeWhile_append_hit _ x r rbrace hall hx
  simp only [spanBody, ht, hd]
  simp [h1]

/-- Expanding a single well-formed reference `${x}` yields exactly the
inner replacement function's answer for `x`. -/
theorem expand_one (e : EvalState) (x : String)
    (hx1 : x.toList ≠ []) (hx2 : rbrace ∉ x.toList) :
    expandString e ("$\x7b" ++ x ++ "\x7d") = lookupVar e x := by
  cases x with
  | mk xd =>
    have hx1' : xd ≠ [] := hx1
    have hx2' : rbrace ∉ xd := hx2
    have htl : ("$\x7b" ++ String.mk xd ++ "\x7d").toList
        = '$' :: lbrace :: (xd ++ rbrace :: []) := by
      rw [toList_append, toList_append]
      have h1 : ("$\x7b" : String).toList = ['$', lbrace] := by decide
      have h2 : ("\x7d" : String).toList = [rbrace] := by decide
      rw [h1, h2]
      simp
    have hs : spanBody (xd ++ rbrace :: []) = some (xd, []) :=
      spanBody_closed xd [] hx1' hx2'
    unfold expandString scanExpand
    rw [htl]
    simp only [scanExpandF, hs, scanExpandF_nil]
    simp [mk_toList]

theorem scanExpandF_id (f : String → String) (n : Nat) :
    ∀ cs, containsRef cs = false → scanExpandF f n cs = cs := by
  induction n with
  | zero => intro cs _; rfl
  | succ n ih =>
    intro cs h
    match cs with
    | [] => rfl
    | c :: rest =>
      by_cases hc : c = '$'
      · subst hc
        match rest with
        | [] => rfl
        | c2 :: rest2 =>
          by_cases h2 : c2 = lbrace
          · subst h2
            cases hs : spanBody rest2 with
            | some p => simp [containsRef, hs] at h
            | none =>
              have h' : containsRef (lbrace :: rest2) = false := by
                simpa [containsRef, hs] using h
              simp only [scanExpandF, hs]
              simp only [if_true, reduceIte]
              rw [ih _ h']
          · have h' : containsRef (c2 :: rest2) = false := by
              simpa [containsRef, h2] using h
            simp only [scanExpandF]
            simp [h2, ih _ h']
      · have h' : containsRef rest = false := by
          simpa [containsRef, hc] using h
        simp only [scanExpandF]
        simp [hc, ih _ h']

/-- C8 fails on the code: with `x` bound to the empty string in the
read-only map, expanding `${x}` does not return the bound value `""` —
the empty value is treated as unset and the literal text survives. -/
theorem expand_empty_value_counterexample :
    List.lookup "x" [("x", "")] = some ""
    ∧ expandString { initState with ROVariables := [("x", "")] } "$\x7bx\x7d"
        = "$\x7bx\x7d"
    ∧ ("$\x7bx\x7d" : String) ≠ "" := by
  decide

/-- C8 amended: a string with no `${...}` reference expands to itself,
and `${x}` with `x` bound to a *non-empty* value `v` expands to exactly
`v`, with no re-substitution performed on `v`'s own content (the bound
value is returned verbatim even when it itself has the shape of a
reference). -/
theorem expand_amended :
    (∀ (e : EvalState) (s : String),
      containsRef s.toList = false → expandString e s = s)
    ∧ (∀ (e : EvalState) (x v : String),
      x.toList ≠ [] → rbrace ∉ x.toList →
      mapGet e.ROVariables x = v → v ≠ "" →
      expandString e ("$\x7b" ++ x ++ "\x7d") = v) := by
  constructor
  · intro e s h
    unfold expandString scanExpand
    rw [scanExpandF_id _ _ _ h, mk_toList]
  · intro e x v hx1 hx2 hro hv
    rw [expand_one e x hx1 hx2]
    have hp : 0 < v.length := str_length_pos v hv
    simp [lookupVar, hro, hp]

/-- Witness for `expand_amended`: a reference-free string is unchanged,
and a value that itself looks like a reference is returned verbatim. -/
theorem expand_amended_witness :
    expandString initState "no references here" = "no references here"
    ∧ expandString { initState with ROVariables := [("x", "$\x7by\x7d"), ("y", "Z")] }
        "$\x7bx\x7d" = "$\x7by\x7d" :=
  ⟨expand_amended.1 initState "no references here" (by decide),
   expand_amended.2 { initState with ROVariables := [("x", "$\x7by\x7d"), ("y", "Z")] }
     "x" "$\x7by\x7d" (by decide) (by decide) (by decide) (by decide)⟩

/-- C10: a variable whose value in the read-only map is empty is
indistinguishable from an unset one — expansion falls through to the
mutable map (so an empty read-only binding does not shadow a non-empty
mutable one), and when both tiers are empty the literal `${x}` text is
returned. -/
theorem empty_ro_indistinguishable (e : EvalState) (x v : String)
    (hx1 : x.toList ≠ []) (hx2 : rbrace ∉ x.toList)
    (hro : mapGet e.ROVariables x = "") :
    (mapGet e.Variables x = v → v ≠ "" →
      expandString e ("$\x7b" ++ x ++ "\x7d") = v)
    ∧ (mapGet e.Variables x = "" →
      expandString e ("$\x7b" ++ x ++ "\x7d") = "$\x7b" ++ x ++ "\x7d") := by
  have htl : ("$\x7b" ++ x ++ "\x7d").toList
      = '$' :: lbrace :: (x.toList ++ rbrace :: []) := by
    rw [toList_append, toList_append]
    have h1 : ("$\x7b" : String).toList = ['$', lbrace] := by decide
    have h2 : ("\x7d" : String).toList = [rbrace] := by decide
    rw [h1, h2]
    simp
  constructor
  · intro hm hv
    rw [expand_one e x hx1 hx2]
    have hp : 0 < v.length := str_length_pos v hv
    simp [lookupVar, hro, hm, hp]
  · intro hm
    rw [expand_one e x hx1 hx2]
    simp only [lookupVar, hro, hm]
    conv_rhs => rw [← mk_toList ("$\x7b" ++ x ++ "\x7d")]
    rw [htl]
    simp

/-- Witness for `empty_ro_indistinguishable`: with read-only `x = ""` and
mutable `x = "W"`, `${x}` expands to `"W"`; with both empty it stays
literal. -/
theorem empty_ro_indistinguishable_witness :
    expandString { initState with
        ROVariables := [("x", "")]
        Variables := [("x", "W")] } "$\x7bx\x7d" = "W"
    ∧ expandString { initState with ROVariables := [("x", "")] } "$\x7bx\x7d"
        = "$\x7bx\x7d" :=
  ⟨(empty_ro_indistinguishable
      { initState with ROVariables := [("x", "")], Variables := [("x", "W")] }
      "x" "W" (by decide) (by decide) (by decide)).1 (by decide) (by decide),
   (empty_ro_indistinguishable { initState with ROVariables := [("x", "")] }
      "x" "W" (by decide) (by decide) (by decide)).2 (by decide)⟩

end Deployr
